import Mathlib

/-!
A verification development for the contract field-extraction engine in
`app/ocr.py` (with the output record from `app/models.py`).  The Python
functions are shallowly embedded as executable Lean functions over
`List Char`; `String` wrappers appear at the record boundary.

Modelling conventions, used throughout:
* Python strings are `List Char`; `None`-or-string values are `Option (List Char)`.
* `re.IGNORECASE` literal matching is modelled by folding both sides with an
  ASCII lower-casing function (`lowerC`); the OCR text and all the labels in
  the source are ASCII.
* Python's regex class `\s` and `str.strip()` use the whitespace set
  `space, tab, newline, carriage return, vertical tab, form feed` (`isPyWS`);
  non-ASCII whitespace never occurs in the source's inputs of interest.
* Each concrete regular expression of the source is compiled by hand into a
  deterministic matcher; wherever the regex engine's backtracking could
  matter the comment at the matcher explains why the deterministic version
  matches exactly the same strings.
* Money amounts are parsed into an exact number of cents (`Nat`); every
  literal the source's money regex can capture is `\d+(\.\d{1,2})?` after
  comma removal, i.e. has at most two decimal places, and (at any realistic
  magnitude, below 2^53 cents) two such literals convert to the same CPython
  `float` exactly when they denote the same number of cents, so the claims
  (which only compare concrete amounts) are unaffected by modelling `float`
  as exact cents.
-/

/-- Python whitespace for `\s` and `str.strip()` (ASCII subset). -/
def isPyWS (c : Char) : Bool :=
  c == ' ' || c == '\t' || c == '\n' || c == '\r' || c == '\x0b' || c == '\x0c'

/-- Horizontal whitespace: the character class `[ \t]` in `_norm_text`. -/
def isHT (c : Char) : Bool := c == ' ' || c == '\t'

/-- The newline character test used for the `\n{2,}` collapse in `_norm_text`. -/
def isNL (c : Char) : Bool := c == '\n'

/-- ASCII lower-casing; models how `re.IGNORECASE` compares literal characters. -/
def lowerC (c : Char) : Char :=
  if 65 ≤ c.toNat ∧ c.toNat ≤ 90 then Char.ofNat (c.toNat + 32) else c

/-- `s.replace("\r", "\n")` from `_norm_text`. -/
def replCR (l : List Char) : List Char :=
  l.map fun c => if c = '\r' then '\n' else c

/-- `re.sub(classPattern+, rep, s)`: each maximal run of characters of the
class `p` is replaced by the single character `rep`.  Instantiated for the
two substitutions of `_norm_text` and the one of `_collapse_spaces`. -/
def collapseRuns (p : Char → Bool) (rep : Char) : List Char → List Char
  | [] => []
  | c :: cs =>
    if p c then rep :: collapseRuns p rep (cs.dropWhile p)
    else c :: collapseRuns p rep cs
termination_by l => l.length
decreasing_by
  · have h : ∀ l : List Char, (l.dropWhile p).length ≤ l.length := by
      intro l
      induction l with
      | nil => simp [List.dropWhile]
      | cons a as ih =>
        rw [List.dropWhile]
        cases _hpa : p a
        · simp
        · simp
          omega
    simpa using Nat.lt_succ_of_le (h cs)
  · simp

/-- `re.sub(r"[ \t]+", " ", s)` from `_norm_text`. -/
def collapseHT : List Char → List Char := collapseRuns isHT ' '

/-- `re.sub(r"\n{2,}", "\n", s)` from `_norm_text`.  The regex replaces each
maximal run of two or more newlines by one newline and leaves single newlines
alone; in both cases a maximal newline run becomes a single newline, which is
what `collapseRuns` does. -/
def collapseNL : List Char → List Char := collapseRuns isNL '\n'

/-- The right-trim half of Python `str.strip()`. -/
def dropTrailWS (l : List Char) : List Char :=
  (l.reverse.dropWhile isPyWS).reverse

/-- Python `str.strip()` on a character list. -/
def pyStrip (l : List Char) : List Char :=
  dropTrailWS (l.dropWhile isPyWS)

/-- `_norm_text` (ocr.py lines 62-66): fold carriage returns into newlines,
collapse horizontal-whitespace runs to one space, collapse runs of two or
more newlines to one newline, and strip the ends. -/
def _norm_text (l : List Char) : List Char :=
  pyStrip (collapseNL (collapseHT (replCR l)))

/-! ## Generic scanning primitives (re.search position scan) -/

/-- Python `x or y` for string-valued `x`: the first operand unless it is the
empty string. -/
def pyOrL (a b : List Char) : List Char := if a = [] then b else a

/-- Python `x or y` for optional-string values (`None` and `""` are falsy). -/
def pyOr (a b : Option (List Char)) : Option (List Char) :=
  match a with
  | some v => if v = [] then b else some v
  | none => b

/-- Python `x or y` on values that are never falsy when present
(datetimes, floats from the money parser are nonzero-checked nowhere):
`None` is the only falsy case the source can produce there. -/
def pyOrOpt (a b : Option α) : Option α :=
  match a with
  | some v => some v
  | none => b

/-- Case-insensitive literal prefix test (regex literal under `re.IGNORECASE`). -/
def ciStarts : List Char → List Char → Bool
  | [], _ => true
  | _ :: _, [] => false
  | a :: as, b :: bs => if lowerC a = lowerC b then ciStarts as bs else false

/-- `re.search` position scan: try the position matcher `f` at every suffix,
left to right (leftmost match wins), including the empty suffix. -/
def scanSuffix (f : List Char → Option α) : List Char → Option α
  | [] => f []
  | c :: cs =>
    match f (c :: cs) with
    | some a => some a
    | none => scanSuffix f cs

/-- `re.search(re.escape(marker), text, re.IGNORECASE)`: index of the first
case-insensitive occurrence of `needle`. -/
def ciFind (needle : List Char) : List Char → Option Nat
  | [] => if ciStarts needle [] then some 0 else none
  | c :: cs =>
    if ciStarts needle (c :: cs) then some 0
    else (ciFind needle cs).map (· + 1)

/-- `re.sub(r"\D", "", s)`: keep only the digits. -/
def digitsOnly (l : List Char) : List Char := l.filter Char.isDigit

/-! ## `_extract_section` (ocr.py lines 115-131) -/

/-- The `for em in end_markers` loop of `_extract_section`: lower `end_pos`
to the start of each end marker found after `startPos`. -/
def sectionEndPos (text : List Char) (startPos : Nat) (endMarkers : List (List Char)) : Nat :=
  endMarkers.foldl
    (fun acc em =>
      match ciFind em (text.drop startPos) with
      | some m => min acc (startPos + m)
      | none => acc)
    text.length

/-- `_extract_section(text, start_marker, end_markers)`: the stripped text
between the end of the first case-insensitive occurrence of `startMarker`
and the earliest end-marker occurrence after it (or the end of the text);
the empty string when the start marker is absent. -/
def _extract_section (text startMarker : List Char) (endMarkers : List (List Char)) :
    List Char :=
  match ciFind startMarker text with
  | none => []
  | some i =>
    let startPos := i + startMarker.length
    let endPos := sectionEndPos text startPos endMarkers
    pyStrip ((text.drop startPos).take (endPos - startPos))

/-! ## `_extract_value_by_label` (ocr.py lines 134-147)

The pattern is `label + r"\s*:\s*([^\n]+)"` under `re.IGNORECASE`.  After the
literal label the engine consumes `\s*` greedily; since no whitespace
character is a colon, backtracking cannot make the following `:` match, so
the maximal whitespace run is the only candidate.  After the colon, `\s*`
again consumes the maximal whitespace run; if a character follows it, that
character is non-whitespace (hence not a newline) and the greedy `[^\n]+`
captures the run of non-newline characters from there.  If the maximal
whitespace run reaches the end of the text, the engine backtracks `\s*`
character by character; the first position where `[^\n]+` can match is the
last non-newline character of the run (everything after it is `\n`), and the
capture is exactly that single character. -/

/-- `\s*([^\n]+)` at the start of `t`: the captured group, if the tail
matches. -/
def wsThenLineTail (t : List Char) : Option (List Char) :=
  let rest := t.dropWhile isPyWS
  match rest with
  | _ :: _ => some (rest.takeWhile (· ≠ '\n'))
  | [] =>
    match (t.takeWhile isPyWS).reverse.dropWhile isNL with
    | c :: _ => some [c]
    | [] => none

/-- Try `label\s*:\s*([^\n]+)` at the start of `t`; returns the capture. -/
def labelValueAt (label : List Char) (t : List Char) : Option (List Char) :=
  if ciStarts label t then
    let afterLabel := (t.drop label.length).dropWhile isPyWS
    match afterLabel with
    | ':' :: rest => wsThenLineTail rest
    | _ => none
  else none

/-- `_extract_value_by_label(text, label, max_len)`: first `label: value`
occurrence, value stripped, `None`-d when empty, truncated to `maxLen` and
re-stripped when longer. -/
def _extract_value_by_label (text label : List Char) (maxLen : Nat := 200) :
    Option (List Char) :=
  match scanSuffix (labelValueAt label) text with
  | none => none
  | some g =>
    let v := pyStrip g
    if v = [] then none
    else
      let v := pyStrip v
      if maxLen < v.length then some (pyStrip (v.take maxLen)) else some v

/-! ## `_extract_phone_from_chunk` (ocr.py lines 162-177)

The pattern is `(\(?\d{3}\)?\s*[- ]?\s*\d{3}\s*[- ]?\s*\d{4})`.  Each piece
is deterministic: the optional parentheses must be taken when present
(a digit cannot match them and they cannot match a digit); inside
`\s*[- ]?\s*` the greedy whitespace run is maximal — a character after a
maximal whitespace run is never a space, so the optional `[- ]` can only
consume a hyphen there, and handing whitespace back to `[- ]` would merely
shift the same characters between sub-expressions without changing the
match — and backtracking whitespace before a `\d` cannot help since
whitespace is not a digit. -/

/-- Consume exactly `n` digit characters. -/
def consumeDigits : Nat → List Char → Option (List Char × List Char)
  | 0, t => some ([], t)
  | _ + 1, [] => none
  | n + 1, c :: t =>
    if c.isDigit then (consumeDigits n t).map (fun p => (c :: p.1, p.2))
    else none

/-- Consume an optional single character satisfying `p`. -/
def consumeOpt (p : Char → Bool) : List Char → List Char × List Char
  | [] => ([], [])
  | c :: t => if p c then ([c], t) else ([], c :: t)

/-- `\s*[- ]?\s*`: the separator between phone digit groups; first
component is the consumed text, second the rest. -/
def phoneSep (t : List Char) : List Char × List Char :=
  let t1 := t.dropWhile isPyWS
  let s := consumeOpt (fun c => c == '-' || c == ' ') t1
  (t.takeWhile isPyWS ++ s.1 ++ s.2.takeWhile isPyWS, s.2.dropWhile isPyWS)

/-- Match the phone pattern at the start of `t`; returns the matched text
(the capture group is the whole match). -/
def matchPhoneAt (t : List Char) : Option (List Char) :=
  let a := consumeOpt (· == '(') t
  match consumeDigits 3 a.2 with
  | none => none
  | some (d1, t2) =>
    let b := consumeOpt (· == ')') t2
    let s1 := phoneSep b.2
    match consumeDigits 3 s1.2 with
    | none => none
    | some (d2, t5) =>
      let s2 := phoneSep t5
      match consumeDigits 4 s2.2 with
      | none => none
      | some (d3, _) => some (a.1 ++ d1 ++ b.1 ++ s1.1 ++ d2 ++ s2.1 ++ d3)

/-- `_extract_phone_from_chunk(chunk)`: search the phone pattern, strip
non-digits from the match, and return the last ten digits when at least ten
remain. -/
def _extract_phone_from_chunk (chunk : List Char) : Option (List Char) :=
  if chunk = [] then none
  else
    match scanSuffix matchPhoneAt chunk with
    | none => none
    | some m =>
      let d := digitsOnly m
      if 10 ≤ d.length then some (d.drop (d.length - 10)) else none

/-! ## `_extract_long_digit_run` (ocr.py lines 180-190)

`re.findall(rf"\d{{min,max}}", digits)` runs on `digits`, a string that
contains only digit characters.  With `1 ≤ min ≤ max` the greedy quantifier
takes `min(remaining, max)` digits whenever at least `min` remain, and the
scan continues right after each match, so the matches chop the digit string
into consecutive segments of `max` digits with a final segment of the
remainder when it is at least `min` long.  (For `min > max` the Python
pattern would not even compile, and the source only calls this with
`10 ≤ 20` and `18 ≤ 22`.) -/

/-- The list of `re.findall(rf"\d{{minL,maxL}}", ...)` matches on an
all-digit string. -/
def chopDigits (minL maxL : Nat) (l : List Char) : List (List Char) :=
  if 1 ≤ minL ∧ minL ≤ maxL ∧ minL ≤ l.length then
    l.take maxL :: chopDigits minL maxL (l.drop maxL)
  else []
termination_by l.length
decreasing_by
  rename_i h
  simp only [List.length_drop]
  omega

/-- Python `max(runs, key=len)`: the first element of maximal length. -/
def pyMaxByLen (h : List Char) (t : List (List Char)) : List Char :=
  t.foldl (fun acc x => if acc.length < x.length then x else acc) h

/-- `_extract_long_digit_run(chunk, min_len, max_len)` with `chunk` an
optional string (`if not chunk` covers `None` and the empty string). -/
def _extract_long_digit_run (chunk : Option (List Char)) (minLen maxLen : Nat) :
    Option (List Char) :=
  match chunk with
  | none => none
  | some c =>
    if c = [] then none
    else
      let digits := digitsOnly c
      match chopDigits minLen maxLen digits with
      | [] => none
      | r :: rs => some (pyMaxByLen r rs)

/-! ## `_money_to_float` (ocr.py lines 80-90) and the charge patterns

The three charge regexes all end in `\s*:\s*\$?\s*([0-9.,]+)` after their
literal part.  `\s*` is deterministic before `:`/`$`/the class (no whitespace
character is a colon, a dollar sign, or in `[0-9.,]`), and the greedy class
run is maximal.  In `_money_to_float` the capture of `(\d+(\.\d{1,2})?)` is
always a valid `float(...)` literal, so the `try`-`except ValueError` around
the conversion never fires; the conversion itself is modelled exactly as a
rational. -/

/-- The character class `[0-9.,]`. -/
def isMoneyChar (c : Char) : Bool := c.isDigit || c == '.' || c == ','

/-- `\s*:\s*\$?\s*([0-9.,]+)`: the shared tail of the charge patterns. -/
def moneyTail (t : List Char) : Option (List Char) :=
  match t.dropWhile isPyWS with
  | ':' :: t2 =>
    let t3 := t2.dropWhile isPyWS
    let (_, t4) := consumeOpt (· == '$') t3
    let t5 := t4.dropWhile isPyWS
    let g := t5.takeWhile isMoneyChar
    if g = [] then none else some g
  | _ => none

/-- `_first_group(rf"{label}\s*:\s*\$?\s*([0-9.,]+)", text, re.IGNORECASE)`. -/
def chargeGroup (label text : List Char) : Option (List Char) :=
  (scanSuffix
    (fun s => if ciStarts label s then moneyTail (s.drop label.length) else none)
    text).map pyStrip

/-- Digit list to number, most significant first. -/
def digitsToNat (l : List Char) : Nat :=
  l.foldl (fun a c => a * 10 + (c.toNat - 48)) 0

/-- `(\d+(\.\d{1,2})?)` at the start of `t`, converted by `float(...)` and
represented as an exact number of cents: the greedy integer run, optionally
a dot and one or two fraction digits (the optional group is skipped when no
digit follows the dot, which yields the same value). -/
def moneyNumAt (t : List Char) : Option Nat :=
  match t with
  | c :: _ =>
    if c.isDigit then
      let ip := t.takeWhile Char.isDigit
      let rest := t.drop ip.length
      let fr :=
        match rest with
        | '.' :: r2 => (r2.takeWhile Char.isDigit).take 2
        | _ => []
      some (digitsToNat ip * 100 + digitsToNat fr * 10 ^ (2 - fr.length))
    else none
  | [] => none

/-- `_money_to_float(s)`: `None` for falsy input, commas removed, first
integer-or-decimal substring as a number (in cents), `None` when no digit
occurs. -/
def _money_to_float (s : Option (List Char)) : Option Nat :=
  match s with
  | none => none
  | some v =>
    if v = [] then none
    else scanSuffix moneyNumAt (v.filter (· ≠ ','))

/-- `re.sub(r"\s+", " ", s)` from `_collapse_spaces` (ocr.py lines 68-71). -/
def collapseWSRuns : List Char → List Char := collapseRuns isPyWS ' '

/-- `_collapse_spaces(s)`.  (On a truthy all-whitespace input Python returns
the empty string, modelled as `some []`.) -/
def _collapse_spaces (s : Option (List Char)) : Option (List Char) :=
  match s with
  | none => none
  | some v => if v = [] then none else some (pyStrip (collapseWSRuns v))

/-! ## `_parse_date_str` (ocr.py lines 92-112) and `datetime.strptime`

Each `DATE_PATTERNS` entry is compiled the way CPython's `_strptime` does:
`%m` becomes `1[0-2]|0[1-9]|[1-9]`, `%d` becomes `3[01]|[12]\d|0[1-9]|[1-9]`,
`%Y` becomes `\d\d\d\d`, `%B`/`%b` become the month-name alternation,
whitespace in the format becomes `\s+`, matching is case-insensitive and
must cover the whole string, and the resulting numbers go through the
`datetime` constructor, whose range check raises `ValueError` (caught by the
loop) for impossible dates. -/

structure PyDate where
  year : Nat
  month : Nat
  day : Nat
deriving DecidableEq, Repr

def isLeap (y : Nat) : Bool := y % 4 == 0 && (y % 100 != 0 || y % 400 == 0)

def daysInMonth (y m : Nat) : Nat :=
  if m = 2 then (if isLeap y then 29 else 28)
  else if m = 4 ∨ m = 6 ∨ m = 9 ∨ m = 11 then 30
  else 31

/-- `datetime(year, month, day)`: `ValueError` outside the supported range. -/
def mkDatetime (y m d : Nat) : Except Unit PyDate :=
  if 1 ≤ y ∧ y ≤ 9999 ∧ 1 ≤ m ∧ m ≤ 12 ∧ 1 ≤ d ∧ d ≤ daysInMonth y m then
    Except.ok ⟨y, m, d⟩
  else Except.error ()

/-- Value of a digit character. -/
def dval (c : Char) : Nat := c.toNat - 48

/-- Two-digit `%m` values accepted by `1[0-2]|0[1-9]`. -/
def month2OK (v : Nat) : Bool := 1 ≤ v && v ≤ 12

/-- Two-digit `%d` values accepted by `3[01]|[12]\d|0[1-9]`. -/
def day2OK (v : Nat) : Bool := 1 ≤ v && v ≤ 31

/-- A `%m`/`%d` field: two digits exactly when they form an accepted
two-digit value, else one nonzero digit.  In every format the element after
the field is a literal or whitespace — never a digit — so when the regex
engine would fall back from the two-digit alternative to the one-digit one
the next element meets the second digit and fails either way; this
deterministic reading accepts exactly the same strings. -/
def parseField2 (valid2 : Nat → Bool) : List Char → Option (Nat × List Char)
  | c1 :: c2 :: r =>
    if c1.isDigit ∧ c2.isDigit ∧ valid2 (dval c1 * 10 + dval c2) then
      some (dval c1 * 10 + dval c2, r)
    else if c1.isDigit ∧ dval c1 ≠ 0 then some (dval c1, c2 :: r)
    else none
  | [c1] => if c1.isDigit ∧ dval c1 ≠ 0 then some (dval c1, []) else none
  | [] => none

/-- `%Y`: exactly four digits. -/
def year4 : List Char → Option (Nat × List Char)
  | a :: b :: c :: d :: r =>
    if a.isDigit ∧ b.isDigit ∧ c.isDigit ∧ d.isDigit then
      some (digitsToNat [a, b, c, d], r)
    else none
  | _ => none

def monthNamesFull : List (List Char) :=
  ["January".data, "February".data, "March".data, "April".data, "May".data,
   "June".data, "July".data, "August".data, "September".data, "October".data,
   "November".data, "December".data]

def monthNamesAbbr : List (List Char) :=
  ["Jan".data, "Feb".data, "Mar".data, "Apr".data, "May".data, "Jun".data,
   "Jul".data, "Aug".data, "Sep".data, "Oct".data, "Nov".data, "Dec".data]

/-- The `%B`/`%b` alternation.  No month name is a case-insensitive proper
initial segment of another within either list, so at most one alternative
can match and the trying order is irrelevant. -/
def matchMonthFrom (names : List (List Char)) (i : Nat) (t : List Char) :
    Option (Nat × List Char) :=
  match names with
  | [] => none
  | n :: ns =>
    if ciStarts n t then some (i, t.drop n.length)
    else matchMonthFrom ns (i + 1) t

/-- `datetime.strptime(s, "%B %d, %Y")` (with `names := monthNamesFull`) and
`"%b %d, %Y"` (with `names := monthNamesAbbr`). -/
def strptimeMonthName (names : List (List Char)) (t : List Char) : Except Unit PyDate :=
  match matchMonthFrom names 1 t with
  | none => Except.error ()
  | some (m, t1) =>
    if t1.takeWhile isPyWS = [] then Except.error ()
    else
      match parseField2 day2OK (t1.dropWhile isPyWS) with
      | some (d, ',' :: t4) =>
        if t4.takeWhile isPyWS = [] then Except.error ()
        else
          match year4 (t4.dropWhile isPyWS) with
          | some (y, []) => mkDatetime y m d
          | _ => Except.error ()
      | _ => Except.error ()

/-- `datetime.strptime(s, "%Y-%m-%d")`. -/
def strptime_Ymd (t : List Char) : Except Unit PyDate :=
  match year4 t with
  | some (y, '-' :: t1) =>
    match parseField2 month2OK t1 with
    | some (m, '-' :: t2) =>
      match parseField2 day2OK t2 with
      | some (d, []) => mkDatetime y m d
      | _ => Except.error ()
    | _ => Except.error ()
  | _ => Except.error ()

/-- `datetime.strptime(s, "%m/%d/%Y")`. -/
def strptime_mdY (t : List Char) : Except Unit PyDate :=
  match parseField2 month2OK t with
  | some (m, '/' :: t1) =>
    match parseField2 day2OK t1 with
    | some (d, '/' :: t2) =>
      match year4 t2 with
      | some (y, []) => mkDatetime y m d
      | _ => Except.error ()
    | _ => Except.error ()
  | _ => Except.error ()

/-- `datetime.strptime(s, "%d/%m/%Y")`. -/
def strptime_dmY (t : List Char) : Except Unit PyDate :=
  match parseField2 day2OK t with
  | some (d, '/' :: t1) =>
    match parseField2 month2OK t1 with
    | some (m, '/' :: t2) =>
      match year4 t2 with
      | some (y, []) => mkDatetime y m d
      | _ => Except.error ()
    | _ => Except.error ()
  | _ => Except.error ()

/-- The five formats of `DATE_PATTERNS` (ocr.py lines 54-60), in order. -/
inductive DateFmt
  | BdY
  | bdY
  | Ymd
  | mdY
  | dmY
deriving DecidableEq, Repr

def DATE_PATTERNS : List DateFmt := [.BdY, .bdY, .Ymd, .mdY, .dmY]

/-- `datetime.strptime(s, fmt)` for the five formats used by the source. -/
def strptimeE : DateFmt → List Char → Except Unit PyDate
  | .BdY, t => strptimeMonthName monthNamesFull t
  | .bdY, t => strptimeMonthName monthNamesAbbr t
  | .Ymd, t => strptime_Ymd t
  | .mdY, t => strptime_mdY t
  | .dmY, t => strptime_dmY t

/-- The `for fmt in DATE_PATTERNS: try ... except ValueError: continue`
loop: first successful parse wins, a `ValueError` moves to the next format. -/
def tryFormats (t : List Char) : Option PyDate :=
  DATE_PATTERNS.foldl
    (fun acc fmt =>
      match acc with
      | some d => some d
      | none => (strptimeE fmt t).toOption)
    none

/-- `datetime.fromisoformat(s)` restricted to the plain `YYYY-MM-DD` date
form.  (CPython also accepts datetime strings with a time part; the source
only reaches this fallback after all five `DATE_PATTERNS` — including
`%Y-%m-%d` — have failed, and no claim depends on the extended grammar.) -/
def fromisoformatE (t : List Char) : Except Unit PyDate :=
  match t with
  | [y1, y2, y3, y4, '-', m1, m2, '-', d1, d2] =>
    if y1.isDigit ∧ y2.isDigit ∧ y3.isDigit ∧ y4.isDigit ∧ m1.isDigit ∧ m2.isDigit
        ∧ d1.isDigit ∧ d2.isDigit then
      mkDatetime (digitsToNat [y1, y2, y3, y4]) (digitsToNat [m1, m2]) (digitsToNat [d1, d2])
    else Except.error ()
  | _ => Except.error ()

/-- `re.sub(r"[;|]+$", "", s)`: drop a trailing run of `;`/`|`.  After
`_collapse_spaces` the string has no newline, so `$` is the end of string. -/
def stripTrailSemiBar (l : List Char) : List Char :=
  (l.reverse.dropWhile (fun c => c == ';' || c == '|')).reverse

/-- `_parse_date_str(s)` (ocr.py lines 92-112). -/
def _parse_date_str (s : Option (List Char)) : Option PyDate :=
  match _collapse_spaces s with
  | none => none
  | some s1 =>
    if s1 = [] then none
    else
      let s2 := pyStrip (stripTrailSemiBar s1)
      match tryFormats s2 with
      | some d => some d
      | none => (fromisoformatE s2).toOption

/-! ## `_extract_labeled_date` (ocr.py lines 193-201)

The capture is the alternation `[A-Za-z]{3,9}\s+\d{1,2},\s+\d{4}` /
`\d{4}-\d{2}-\d{2}` / `\d{1,2}/\d{1,2}/\d{4}`, tried in that order at each
position.  A counted greedy quantifier whose follower is outside its class
consumes exactly the maximal run (any shorter amount leaves a class
character where the follower is required), so the bounded quantifiers reduce
to length tests on maximal runs. -/

def dateTokenAlt1 (t : List Char) : Option (List Char) :=
  let letters := t.takeWhile Char.isAlpha
  if 3 ≤ letters.length ∧ letters.length ≤ 9 then
    let t1 := t.drop letters.length
    let w1 := t1.takeWhile isPyWS
    if w1 = [] then none
    else
      let t2 := t1.dropWhile isPyWS
      let dd := t2.takeWhile Char.isDigit
      if 1 ≤ dd.length ∧ dd.length ≤ 2 then
        match t2.drop dd.length with
        | ',' :: t4 =>
          let w2 := t4.takeWhile isPyWS
          if w2 = [] then none
          else
            match consumeDigits 4 (t4.dropWhile isPyWS) with
            | some (y, _) => some (letters ++ w1 ++ dd ++ [','] ++ w2 ++ y)
            | none => none
        | _ => none
      else none
  else none

def dateTokenAlt2 (t : List Char) : Option (List Char) :=
  match t with
  | a :: b :: c :: d :: '-' :: e :: f :: '-' :: g :: h :: _ =>
    if a.isDigit ∧ b.isDigit ∧ c.isDigit ∧ d.isDigit ∧ e.isDigit ∧ f.isDigit
        ∧ g.isDigit ∧ h.isDigit then
      some [a, b, c, d, '-', e, f, '-', g, h]
    else none
  | _ => none

def dateTokenAlt3 (t : List Char) : Option (List Char) :=
  let d1 := t.takeWhile Char.isDigit
  if 1 ≤ d1.length ∧ d1.length ≤ 2 then
    match t.drop d1.length with
    | '/' :: t1 =>
      let d2 := t1.takeWhile Char.isDigit
      if 1 ≤ d2.length ∧ d2.length ≤ 2 then
        match t1.drop d2.length with
        | '/' :: t2 =>
          match consumeDigits 4 t2 with
          | some (y, _) => some (d1 ++ ['/'] ++ d2 ++ ['/'] ++ y)
          | none => none
        | _ => none
      else none
    | _ => none
  else none

def dateTokenAt (t : List Char) : Option (List Char) :=
  match dateTokenAlt1 t with
  | some m => some m
  | none =>
    match dateTokenAlt2 t with
    | some m => some m
    | none => dateTokenAlt3 t

/-- `label\s*:\s*(date token)` at the start of `t`. -/
def labeledDateAt (label : List Char) (t : List Char) : Option (List Char) :=
  if ciStarts label t then
    match (t.drop label.length).dropWhile isPyWS with
    | ':' :: rest => dateTokenAt (rest.dropWhile isPyWS)
    | _ => none
  else none

/-- `_extract_labeled_date(text, label)`. -/
def _extract_labeled_date (text label : List Char) : Option PyDate :=
  _parse_date_str ((scanSuffix (labeledDateAt label) text).map pyStrip)

/-! ## `_extract_block_after_label` (ocr.py lines 150-159)

The pattern is `label\s*:\s*(.*?)(?=\n(?:stops)\s*:|\n[A-Z][A-Z ]{3,}:|\Z)`
with `re.DOTALL | re.IGNORECASE`.  The lazy group grows from the end of the
greedy `\s*` run until the first position where the lookahead holds; the
`\Z` branch holds at the end of the string, so the match always succeeds
once `label\s*:` is found.  Under `re.IGNORECASE` the class `[A-Z]` also
matches lower-case letters, and the greedy `{3,}` must end exactly at the
maximal letter/space run because a colon is in neither class. -/

def capsHeaderAt : List Char → Bool
  | c :: cs =>
    Char.isAlpha c &&
      (let run := cs.takeWhile fun d => Char.isAlpha d || d == ' '
       decide (3 ≤ run.length) && (cs.drop run.length).head? == some ':')
  | [] => false

def blockStopAt (stops : List (List Char)) : List Char → Bool
  | '\n' :: rest =>
    stops.any
      (fun st =>
        ciStarts st rest &&
          ((rest.drop st.length).dropWhile isPyWS).head? == some ':')
      || capsHeaderAt rest
  | _ => false

def takeUntilStop (stops : List (List Char)) : List Char → List Char
  | [] => []
  | c :: cs => if blockStopAt stops (c :: cs) then [] else c :: takeUntilStop stops cs

def blockValueAt (label : List Char) (stops : List (List Char)) (t : List Char) :
    Option (List Char) :=
  if ciStarts label t then
    match (t.drop label.length).dropWhile isPyWS with
    | ':' :: rest => some (takeUntilStop stops (rest.dropWhile isPyWS))
    | _ => none
  else none

/-- `_extract_block_after_label(text, label, stop_labels)`. -/
def _extract_block_after_label (text label : List Char) (stops : List (List Char)) :
    Option (List Char) :=
  match scanSuffix (blockValueAt label stops) text with
  | none => none
  | some g =>
    let v := pyStrip g
    if v = [] then none else _collapse_spaces (some v)

/-! ## `re.split(...)[0]` truncations -/

/-- The text before the first match of the position matcher `m`, which sees
the previous character (for `\b`) and the current suffix. -/
def splitHead (m : Option Char → List Char → Bool) : Option Char → List Char → List Char
  | _, [] => []
  | prev, c :: cs => if m prev (c :: cs) then [] else c :: splitHead m (some c) cs

/-- Regex word characters (for `\b`). -/
def isWordChar (c : Char) : Bool := c.isAlphanum || c == '_'

/-- `(alt1|alt2|...)\s*:` at the start of `t` (case-insensitive). -/
def altColonAt (alts : List (List Char)) (t : List Char) : Bool :=
  alts.any fun a =>
    ciStarts a t && ((t.drop a.length).dropWhile isPyWS).head? == some ':'

/-- `\b(alt1|alt2|...)\s*:`: every alternative starts with a word character,
so the boundary holds exactly when the previous character is absent or not a
word character. -/
def altColonBoundAt (alts : List (List Char)) (prev : Option Char) (t : List Char) : Bool :=
  (match prev with
   | none => true
   | some p => !isWordChar p) && altColonAt alts t

/-- `\b(alt1|alt2|...)\b`: word boundaries on both sides; every alternative
starts and ends with a word character. -/
def altBothBoundAt (alts : List (List Char)) (prev : Option Char) (t : List Char) : Bool :=
  (match prev with
   | none => true
   | some p => !isWordChar p) &&
    alts.any fun a =>
      ciStarts a t &&
        (match (t.drop a.length).head? with
         | none => true
         | some c => !isWordChar c)

/-! ## `_pick_customer_name` (ocr.py lines 204-225) -/

def pickNameLabels : List (List Char) :=
  ["Customer Name".data, "Company Name".data, "Customer ID".data, "Account Number".data]

def pickNameTruncAlts : List (List Char) :=
  ["Monthly Payment Method".data, "First Bill Date".data, "User Name".data,
   "Account Number".data, "Phone Number".data, "Default Voicemail Password".data,
   "Address".data]

def pickNameGo (info : List Char) : List (List Char) → Option (List Char)
  | [] => none
  | label :: rest =>
    match _collapse_spaces (_extract_value_by_label info label) with
    | some v =>
      if v = [] then pickNameGo info rest
      else
        let v2 := pyStrip (splitHead (fun _ t => altColonAt pickNameTruncAlts t) none v)
        if v2 = [] then pickNameGo info rest else some v2
    | none => pickNameGo info rest

def _pick_customer_name (info : List Char) : Option (List Char) :=
  pickNameGo info pickNameLabels

/-! ## `_pick_plan_name_and_charge` (ocr.py lines 228-270) -/

def mrcLabel : List Char := "Monthly Rate Plan Charge".data

def mmcLabel : List Char := "Minimum Monthly Charge".data

def planHeaderSkips : List (List Char) :=
  ["YOUR RATE PLAN DETAILS".data, "YOUR RATE PLAN ADD-ONS".data,
   "MINIMUM MONTHLY CHARGE".data, "TOTAL MONTHLY CHARGE".data]

/-- `ln.strip("â€¢* \t")`: the strip set in the source is the mojibake
rendering of a bullet character plus asterisk, space and tab. -/
def isBulletChar (c : Char) : Bool :=
  c == 'â' || c == '€' || c == '¢' || c == '*' || c == ' ' || c == '\t'

/-- Python `str.strip(chars)`. -/
def stripChars (p : Char → Bool) (l : List Char) : List Char :=
  ((l.dropWhile p).reverse.dropWhile p).reverse

/-- Python `s.split("\n")`. -/
def splitLines : List Char → List (List Char)
  | [] => [[]]
  | c :: cs =>
    if c = '\n' then [] :: splitLines cs
    else
      match splitLines cs with
      | h :: t => (c :: h) :: t
      | [] => [[c]]

/-- `[ln.strip("â€¢* \t") for ln in rate_section.split("\n") if ln.strip()]`. -/
def planFallbackLines (rate : List Char) : List (List Char) :=
  ((splitLines rate).filter fun ln => pyStrip ln ≠ []).map (stripChars isBulletChar)

/-- The fallback loop over the rate-section lines: skip section headers and
`Plan:` lines, take the first remaining line (collapsed), stopping there. -/
def planFallbackPick : List (List Char) → Option (List Char)
  | [] => none
  | ln :: rest =>
    if planHeaderSkips.any (fun h => ciStarts h ln) then planFallbackPick rest
    else if ciStarts "Plan".data ln ∧ ((ln.drop 4).dropWhile isPyWS).head? = some ':' then
      planFallbackPick rest
    else _collapse_spaces (some ln)

/-- `_pick_plan_name_and_charge(rate_section, full_text)`. -/
def _pick_plan_name_and_charge (rate full : List Char) :
    Option (List Char) × Option Nat :=
  let planLine :=
    pyOr (_extract_value_by_label rate "Plan".data 250)
      (_extract_value_by_label full "Plan".data 250)
  let fromLine :=
    match planLine with
    | some pl =>
      if pl = [] then (none, none)
      else
        let charge1 := _money_to_float (chargeGroup mrcLabel pl)
        let charge :=
          match charge1 with
          | some c => some c
          | none => _money_to_float (chargeGroup mmcLabel pl)
        let namePart :=
          pyStrip (splitHead (fun _ t => altColonAt [mrcLabel, mmcLabel] t) none pl)
        (_collapse_spaces (some namePart), charge)
    | none => (none, none)
  let planName :=
    match fromLine.1 with
    | some v => if v = [] then planFallbackPick (planFallbackLines rate) else some v
    | none => planFallbackPick (planFallbackLines rate)
  (planName, fromLine.2)

/-! ## `parse_contract_text` (ocr.py lines 274-382) -/

def infoEndMarkers : List (List Char) :=
  ["YOUR DEVICE DETAILS:".data, "YOUR DEVICE DETAILS".data,
   "YOUR RATE PLAN DETAILS:".data, "CRITICAL INFORMATION SUMMARY".data]

def deviceEndMarkers : List (List Char) :=
  ["YOUR RATE PLAN DETAILS:".data, "YOUR RATE PLAN DETAILS".data,
   "MINIMUM MONTHLY CHARGE".data, "TOTAL MONTHLY CHARGE".data]

def rateEndMarkers : List (List Char) :=
  ["YOUR RATE PLAN ADD-ONS:".data, "YOUR PROMOTIONS:".data,
   "TOTAL MONTHLY CHARGE:".data, "ONE-TIME CHARGES:".data]

def infoSectionOf (text : List Char) : List Char :=
  _extract_section text "YOUR INFORMATION:".data infoEndMarkers

def deviceSectionOf (text : List Char) : List Char :=
  _extract_section text "YOUR DEVICE DETAILS:".data deviceEndMarkers

def rateSectionOf (text : List Char) : List Char :=
  _extract_section text "YOUR RATE PLAN DETAILS:".data rateEndMarkers

/-- (ocr.py lines 300-301) the customer-phone resolver applied to its source
text: the `Phone Number`/`Phone` label line, then the phone extractor. -/
def customerPhoneOf (src : List Char) : Option (List Char) :=
  match pyOr (_extract_value_by_label src "Phone Number".data 200)
      (_extract_value_by_label src "Phone".data 200) with
  | some line => if line = [] then none else _extract_phone_from_chunk line
  | none => none

def addressStops : List (List Char) :=
  ["Monthly Payment Method".data, "First Bill Date".data, "User Name".data,
   "Account Number".data, "Phone Number".data, "Default Voicemail Password".data,
   "Customer ID".data]

def orderTruncAlts : List (List Char) := ["Store".data, "Date".data, "Activity".data]

/-- (ocr.py lines 312-316) the order-number resolver on whole-document text. -/
def orderNumberOf (text : List Char) : Option (List Char) :=
  let v0 := _extract_value_by_label text "Order Number".data 200
  let v1 :=
    match v0 with
    | some v =>
      if v = [] then some v
      else some (pyStrip (splitHead (altColonBoundAt orderTruncAlts) none v))
    | none => none
  _collapse_spaces v1

def activityTruncAlts : List (List Char) :=
  ["Store Phone Number".data, "Store".data, "Date".data]

/-- (ocr.py lines 318-321) the activity resolver on whole-document text. -/
def activityOf (text : List Char) : Option (List Char) :=
  let v0 := _extract_value_by_label text "Activity".data 200
  let v1 :=
    match v0 with
    | some v =>
      if v = [] then some v
      else some (pyStrip (splitHead (altColonBoundAt activityTruncAlts) none v))
    | none => none
  _collapse_spaces v1

def modelTruncAlts : List (List Char) :=
  ["Early Cancellation Fee".data, "IMEI/ESN/MEID".data, "SIM Number".data,
   "Commitment Period".data, "Start Date".data, "End Date".data]

/-- (ocr.py lines 354-358) the device-model resolver. -/
def deviceModelOf (src : List Char) : Option (List Char) :=
  let m0 := _extract_value_by_label src "Model".data 200
  let m1 :=
    match m0 with
    | some v =>
      if v = [] then some v
      else some (pyStrip (splitHead (altBothBoundAt modelTruncAlts) none v))
    | none => none
  _collapse_spaces m1

/-- The `MINIMUM MONTHLY CHARGE (FOR DEVICE AND RATE PLAN)` compound pattern
(ocr.py lines 333-339). -/
def minMonthlyPlanAt (t : List Char) : Option (List Char) :=
  if ciStarts "MINIMUM MONTHLY CHARGE".data t then
    let t1 := (t.drop "MINIMUM MONTHLY CHARGE".data.length).dropWhile isPyWS
    if ciStarts "(FOR DEVICE AND RATE PLAN)".data t1 then
      moneyTail (t1.drop "(FOR DEVICE AND RATE PLAN)".data.length)
    else none
  else none

def minimumMonthlyPlanOf (text : List Char) : Option Nat :=
  _money_to_float ((scanSuffix minMonthlyPlanAt text).map pyStrip)

/-- (ocr.py lines 343-351) the whole-document retry for the plan charge:
`Minimum Monthly Charge` first, then `Monthly Rate Plan Charge`. -/
def planChargeRetry (text : List Char) : Option Nat :=
  match _money_to_float (chargeGroup mmcLabel text) with
  | some v => some v
  | none => _money_to_float (chargeGroup mrcLabel text)

/-- (ocr.py lines 326-327) date resolvers: device section first, then
whole-document text. -/
def contractStartOf (device text : List Char) : Option PyDate :=
  pyOrOpt (_extract_labeled_date (pyOrL device text) "Start Date".data)
    (_extract_labeled_date text "Start Date".data)

def contractEndOf (device text : List Char) : Option PyDate :=
  pyOrOpt (_extract_labeled_date (pyOrL device text) "End Date".data)
    (_extract_labeled_date text "End Date".data)

/-- `ContractExtraction` (models.py lines 12-34), with money fields as exact
cents.  `add_ons` entries would be name/charge pairs; `parse_contract_text`
always leaves the list empty.  The model declares no `raw_text` field:
pydantic's default configuration (`extra='ignore'`) silently discards the
`raw_text=full_text` keyword passed at ocr.py line 381, so the program's
output record carries no raw text. -/
structure ContractExtraction where
  customer_name : Option String
  customer_phone : Option String
  customer_address : Option String
  plan_name : Option String
  plan_charge : Option Nat
  minimum_monthly_plan : Option Nat
  contract_start_date : Option PyDate
  contract_end_date : Option PyDate
  order_number : Option String
  activity : Option String
  down_payment : Option Nat
  device_model : Option String
  device_imei : Option String
  serial_number : Option String
  sim_number : Option String
  add_ons : List (String × Nat)
deriving Repr, DecidableEq

def toStr (o : Option (List Char)) : Option String := o.map fun l => ⟨l⟩

/-- `parse_contract_text(full_text)` (ocr.py lines 274-382).  The
`raw_text=full_text` keyword of the constructor call at line 381 is
discarded by pydantic (`ContractExtraction` has no such field), so it does
not appear in the record. -/
def parse_contract_text (full_text : String) : ContractExtraction :=
  let text := _norm_text full_text.data
  let info_section := infoSectionOf text
  let device_section := deviceSectionOf text
  let rate_section := rateSectionOf text
  let customer_name := _pick_customer_name (pyOrL info_section text)
  let customer_phone := customerPhoneOf (pyOrL info_section text)
  let customer_address :=
    _extract_block_after_label (pyOrL info_section text) "Address".data addressStops
  let order_number := orderNumberOf text
  let activity := activityOf text
  let contract_start := contractStartOf device_section text
  let contract_end := contractEndOf device_section text
  let pnc := _pick_plan_name_and_charge (pyOrL rate_section text) text
  let minimum_monthly_plan := minimumMonthlyPlanOf text
  let plan_charge :=
    match pnc.2 with
    | some c => some c
    | none => planChargeRetry text
  let device_model := deviceModelOf (pyOrL device_section text)
  let imei_chunk :=
    pyOr (_extract_value_by_label (pyOrL device_section text) "IMEI/ESN/MEID".data 200)
      (_extract_value_by_label (pyOrL device_section text) "IMEI".data 200)
  let device_imei := _extract_long_digit_run imei_chunk 10 20
  let sim_chunk :=
    pyOr (_extract_value_by_label (pyOrL device_section text) "SIM Number".data 250)
      (_extract_value_by_label (pyOrL device_section text) "SIM".data 250)
  let sim_number := _extract_long_digit_run sim_chunk 18 22
  { customer_name := toStr customer_name
    customer_phone := toStr customer_phone
    customer_address := toStr customer_address
    plan_name := toStr pnc.1
    plan_charge := plan_charge
    minimum_monthly_plan := minimum_monthly_plan
    contract_start_date := contract_start
    contract_end_date := contract_end
    order_number := toStr order_number
    activity := toStr activity
    down_payment := none
    device_model := toStr device_model
    device_imei := toStr device_imei
    serial_number := none
    sim_number := toStr sim_number
    add_ons := [] }

/-! ## Specification-side definitions (used only to state claims) -/

/-- No two adjacent characters both satisfy `p`. -/
def noAdjPair (p : Char → Bool) : List Char → Bool
  | a :: b :: t => !(p a && p b) && noAdjPair p (b :: t)
  | _ => true

/-- Maximal digit runs of a chunk: the spec's "digit-run" notion from the
glossary.  The source never computes this list; it is used to state claim C5
against `_extract_long_digit_run`. -/
def digitRuns : List Char → List (List Char)
  | [] => []
  | c :: cs =>
    if c.isDigit then
      (c :: cs.takeWhile Char.isDigit) :: digitRuns (cs.dropWhile Char.isDigit)
    else digitRuns cs
termination_by l => l.length
decreasing_by
  · have h : ∀ l : List Char, (l.dropWhile Char.isDigit).length ≤ l.length := by
      intro l
      induction l with
      | nil => simp [List.dropWhile]
      | cons a as ih =>
        rw [List.dropWhile]
        cases _hpa : a.isDigit
        · simp
        · simp
          omega
    simpa using Nat.lt_succ_of_le (h cs)
  · simp

/-- Positions in `text` of the first match of each end marker after
`startPos`: the "end-marker matches found after the start" of claim C6. -/
def endMatchPositions (text : List Char) (startPos : Nat) (ems : List (List Char)) :
    List Nat :=
  ems.filterMap fun em => (ciFind em (text.drop startPos)).map (startPos + ·)

/-- The first character, lower-cased, is not a digit: premise shape for the
month-name matcher lemma. -/
def headLowerNonDigit : List Char → Bool
  | [] => false
  | x :: _ => !(lowerC x).isDigit

/-! # Theorems

## `dropWhile` and `pyStrip` lemmas -/

theorem dropWhile_head_false {p : Char → Bool} {l r : List Char} {c : Char}
    (h : l.dropWhile p = c :: r) : p c = false := by
  induction l with
  | nil => simp [List.dropWhile] at h
  | cons a as ih =>
    rw [List.dropWhile] at h
    cases hp : p a
    · rw [hp] at h
      simp at h
      obtain ⟨rfl, -⟩ := h
      exact hp
    · rw [hp] at h
      simp at h
      exact ih h

theorem dropWhile_idem (p : Char → Bool) (l : List Char) :
    (l.dropWhile p).dropWhile p = l.dropWhile p := by
  cases hl : l.dropWhile p with
  | nil => rfl
  | cons c r => simp [List.dropWhile, dropWhile_head_false hl]

theorem dropTrailWS_append (l : List Char) :
    l = dropTrailWS l ++ (l.reverse.takeWhile isPyWS).reverse := by
  have h := List.takeWhile_append_dropWhile (p := isPyWS) (l := l.reverse)
  calc l = l.reverse.reverse := (List.reverse_reverse l).symm
  _ = (l.reverse.takeWhile isPyWS ++ l.reverse.dropWhile isPyWS).reverse := by rw [h]
  _ = (l.reverse.dropWhile isPyWS).reverse ++ (l.reverse.takeWhile isPyWS).reverse := by
      rw [List.reverse_append]
  _ = dropTrailWS l ++ (l.reverse.takeWhile isPyWS).reverse := rfl

theorem pyStrip_head_false {l r : List Char} {c : Char} (h : pyStrip l = c :: r) :
    isPyWS c = false := by
  rw [pyStrip] at h
  have hd := dropTrailWS_append (l.dropWhile isPyWS)
  rw [h, List.cons_append] at hd
  exact dropWhile_head_false hd

theorem dropWhile_pyStrip (l : List Char) :
    (pyStrip l).dropWhile isPyWS = pyStrip l := by
  cases h : pyStrip l with
  | nil => rfl
  | cons c r => simp [List.dropWhile, pyStrip_head_false h]

theorem dropTrailWS_idem (l : List Char) : dropTrailWS (dropTrailWS l) = dropTrailWS l := by
  rw [dropTrailWS, dropTrailWS, List.reverse_reverse, dropWhile_idem]

theorem pyStrip_idem (l : List Char) : pyStrip (pyStrip l) = pyStrip l := by
  show dropTrailWS ((pyStrip l).dropWhile isPyWS) = pyStrip l
  rw [dropWhile_pyStrip]
  show dropTrailWS (dropTrailWS (l.dropWhile isPyWS)) = pyStrip l
  rw [dropTrailWS_idem]
  rfl

theorem length_dropWhile_le' (p : Char → Bool) (l : List Char) :
    (l.dropWhile p).length ≤ l.length := by
  induction l with
  | nil => simp [List.dropWhile]
  | cons a as ih =>
    rw [List.dropWhile]
    cases _hpa : p a
    · simp
    · simp
      omega

theorem pyStrip_length_le (l : List Char) : (pyStrip l).length ≤ l.length := by
  have h1 := length_dropWhile_le' isPyWS l
  have h2 := length_dropWhile_le' isPyWS (l.dropWhile isPyWS).reverse
  simp only [pyStrip, dropTrailWS, List.length_reverse] at *
  omega

theorem pyStrip_cons_ne_nil {c : Char} (hc : isPyWS c = false) (r : List Char) :
    pyStrip (c :: r) ≠ [] := by
  rw [pyStrip]
  have h1 : (c :: r).dropWhile isPyWS = c :: r := by simp [List.dropWhile, hc]
  rw [h1, dropTrailWS]
  intro h
  rw [List.reverse_eq_nil_iff] at h
  have h2 := List.dropWhile_eq_nil_iff.mp h c (by simp)
  rw [hc] at h2
  exact Bool.noConfusion h2

/-! ## `collapseRuns` lemmas (for normalizer idempotence) -/

theorem head?_dropWhile_false {p : Char → Bool} {l : List Char} {d : Char}
    (h : (l.dropWhile p).head? = some d) : p d = false := by
  cases hl : l.dropWhile p with
  | nil => rw [hl] at h; simp at h
  | cons a as =>
    rw [hl] at h
    simp at h
    subst h
    exact dropWhile_head_false hl

theorem noAdjPair_tail {p : Char → Bool} {c : Char} {l : List Char}
    (h : noAdjPair p (c :: l) = true) : noAdjPair p l = true := by
  cases l with
  | nil => rfl
  | cons b t =>
    simp only [noAdjPair, Bool.and_eq_true] at h
    exact h.2

theorem noAdjPair_append_right {p : Char → Bool} :
    ∀ {a b : List Char}, noAdjPair p (a ++ b) = true → noAdjPair p b = true := by
  intro a
  induction a with
  | nil => intro b h; simpa using h
  | cons x xs ih => intro b h; exact ih (noAdjPair_tail h)

theorem noAdjPair_append_left {p : Char → Bool} :
    ∀ (a b : List Char), noAdjPair p (a ++ b) = true → noAdjPair p a = true
  | [], _, _ => rfl
  | [_], _, _ => rfl
  | x :: y :: t, b, h => by
    simp only [List.cons_append, noAdjPair, Bool.and_eq_true] at h ⊢
    exact ⟨h.1, noAdjPair_append_left (y :: t) b (by simpa using h.2)⟩

theorem noAdjPair_dropWhile {p q : Char → Bool} {l : List Char}
    (h : noAdjPair p l = true) : noAdjPair p (l.dropWhile q) = true := by
  apply noAdjPair_append_right (a := l.takeWhile q)
  rw [List.takeWhile_append_dropWhile]
  exact h

theorem noAdjPair_pyStrip {p : Char → Bool} {l : List Char}
    (h : noAdjPair p l = true) : noAdjPair p (pyStrip l) = true := by
  have h1 : noAdjPair p (l.dropWhile isPyWS) = true := noAdjPair_dropWhile h
  rw [pyStrip]
  apply noAdjPair_append_left _ (((l.dropWhile isPyWS).reverse.takeWhile isPyWS).reverse)
  rw [← dropTrailWS_append]
  exact h1

theorem pyStrip_subset (l : List Char) : ∀ x ∈ pyStrip l, x ∈ l := by
  intro x hx
  rw [pyStrip, dropTrailWS] at hx
  rw [List.mem_reverse] at hx
  have h1 := (List.dropWhile_sublist (l := (l.dropWhile isPyWS).reverse) isPyWS).subset hx
  rw [List.mem_reverse] at h1
  exact (List.dropWhile_sublist (l := l) isPyWS).subset h1

theorem collapseRuns_mem {p : Char → Bool} {rep : Char} (l : List Char) (x : Char)
    (hx : x ∈ collapseRuns p rep l) : x = rep ∨ (x ∈ l ∧ p x = false) := by
  induction l using collapseRuns.induct p rep with
  | case1 => simp [collapseRuns] at hx
  | case2 c cs h ih =>
    rw [collapseRuns, if_pos h] at hx
    rcases List.mem_cons.mp hx with h1 | h1
    · exact Or.inl h1
    · rcases ih h1 with h2 | ⟨h2, h3⟩
      · exact Or.inl h2
      · exact Or.inr ⟨List.mem_cons_of_mem c ((List.dropWhile_sublist p).subset h2), h3⟩
  | case3 c cs h ih =>
    rw [collapseRuns, if_neg h] at hx
    rcases List.mem_cons.mp hx with h1 | h1
    · subst h1
      exact Or.inr ⟨List.mem_cons_self .., by simpa using h⟩
    · rcases ih h1 with h2 | ⟨h2, h3⟩
      · exact Or.inl h2
      · exact Or.inr ⟨List.mem_cons_of_mem c h2, h3⟩

theorem collapseRuns_head? {p : Char → Bool} {rep : Char} {l : List Char} {y : Char}
    (h : (collapseRuns p rep l).head? = some y) :
    (y = rep ∧ ∃ d, l.head? = some d ∧ p d = true) ∨ (l.head? = some y ∧ p y = false) := by
  cases l with
  | nil => simp [collapseRuns] at h
  | cons d ds =>
    rw [collapseRuns] at h
    by_cases hd : p d
    · rw [if_pos hd] at h
      simp at h
      exact Or.inl ⟨h.symm, d, rfl, hd⟩
    · rw [if_neg hd] at h
      simp at h
      subst h
      exact Or.inr ⟨rfl, by simpa using hd⟩

theorem collapseRuns_noAdj (p : Char → Bool) (rep : Char) (l : List Char) :
    noAdjPair p (collapseRuns p rep l) = true := by
  induction l using collapseRuns.induct p rep with
  | case1 => simp [collapseRuns, noAdjPair]
  | case2 c cs h ih =>
    rw [collapseRuns, if_pos h]
    cases hX : collapseRuns p rep (cs.dropWhile p) with
    | nil => rfl
    | cons y ys =>
      have hhead : (collapseRuns p rep (cs.dropWhile p)).head? = some y := by rw [hX]; rfl
      have hy : p y = false := by
        rcases collapseRuns_head? hhead with ⟨-, d, hd1, hd2⟩ | ⟨-, h2⟩
        · rw [head?_dropWhile_false hd1] at hd2
          exact Bool.noConfusion hd2
        · exact h2
      simp only [noAdjPair, hy, Bool.and_false, Bool.not_false, Bool.true_and]
      rw [← hX]
      exact ih
  | case3 c cs h ih =>
    rw [collapseRuns, if_neg h]
    cases hX : collapseRuns p rep cs with
    | nil => rfl
    | cons y ys =>
      simp only [noAdjPair, Bool.and_eq_true]
      constructor
      · simp [show p c = false by simpa using h]
      · rw [← hX]
        exact ih

theorem collapseRuns_eq_self {p : Char → Bool} {rep : Char} :
    ∀ {l : List Char}, (∀ x ∈ l, p x = true → x = rep) → noAdjPair p l = true →
      collapseRuns p rep l = l := by
  intro l
  induction l using collapseRuns.induct p rep with
  | case1 => intro _ _; simp [collapseRuns]
  | case2 c cs h ih =>
    intro hOnly hAdj
    rw [collapseRuns, if_pos h]
    have hcs : cs.dropWhile p = cs := by
      cases cs with
      | nil => rfl
      | cons b bs =>
        have hb : p b = false := by
          simp only [noAdjPair, Bool.and_eq_true, Bool.not_eq_true'] at hAdj
          rcases Bool.and_eq_false_iff.mp hAdj.1 with h1 | h1
          · rw [h] at h1; exact Bool.noConfusion h1
          · exact h1
        simp [List.dropWhile, hb]
    rw [hcs] at ih ⊢
    rw [ih (fun x hx hpx => hOnly x (List.mem_cons_of_mem c hx) hpx) (noAdjPair_tail hAdj)]
    rw [hOnly c (List.mem_cons_self ..) h]
  | case3 c cs h ih =>
    intro hOnly hAdj
    rw [collapseRuns, if_neg h]
    rw [ih (fun x hx hpx => hOnly x (List.mem_cons_of_mem c hx) hpx) (noAdjPair_tail hAdj)]

theorem collapseRuns_noAdj_preserve {p q : Char → Bool} {rep : Char}
    (hq : q rep = false) :
    ∀ {l : List Char}, noAdjPair q l = true → noAdjPair q (collapseRuns p rep l) = true := by
  intro l
  induction l using collapseRuns.induct p rep with
  | case1 => intro _; simp [collapseRuns, noAdjPair]
  | case2 c cs h ih =>
    intro hAdj
    rw [collapseRuns, if_pos h]
    cases hX : collapseRuns p rep (cs.dropWhile p) with
    | nil => rfl
    | cons y ys =>
      simp only [noAdjPair, hq, Bool.false_and, Bool.not_false, Bool.true_and]
      rw [← hX]
      exact ih (noAdjPair_dropWhile (noAdjPair_tail hAdj))
  | case3 c cs h ih =>
    intro hAdj
    rw [collapseRuns, if_neg h]
    cases hX : collapseRuns p rep cs with
    | nil => rfl
    | cons y ys =>
      have hhead : (collapseRuns p rep cs).head? = some y := by rw [hX]; rfl
      simp only [noAdjPair, Bool.and_eq_true]
      constructor
      · rcases collapseRuns_head? hhead with ⟨rfl, -⟩ | ⟨h2, -⟩
        · simp [hq]
        · cases cs with
          | nil => simp at h2
          | cons b bs =>
            simp at h2
            subst h2
            simp only [noAdjPair, Bool.and_eq_true, Bool.not_eq_true'] at hAdj
            simp [hAdj.1]
      · rw [← hX]
        exact ih (noAdjPair_tail hAdj)

theorem replCR_no_cr (l : List Char) : ∀ x ∈ replCR l, x ≠ '\r' := by
  intro x hx
  rw [replCR, List.mem_map] at hx
  obtain ⟨a, -, ha⟩ := hx
  by_cases h : a = '\r'
  · rw [if_pos h] at ha
    rw [← ha]
    decide
  · rw [if_neg h] at ha
    rw [← ha]
    exact h

theorem replCR_eq_self {l : List Char} (h : ∀ x ∈ l, x ≠ '\r') : replCR l = l := by
  rw [replCR]
  conv_rhs => rw [← List.map_id l]
  apply List.map_congr_left
  intro a ha
  simp [h a ha]

/-- C7: the text normalizer is idempotent — for every input string `s`,
`_norm_text(_norm_text(s)) = _norm_text(s)`. -/
theorem norm_text_idempotent (l : List Char) :
    _norm_text (_norm_text l) = _norm_text l := by
  have hBadj : noAdjPair isHT (collapseRuns isHT ' ' (replCR l)) = true :=
    collapseRuns_noAdj ..
  have hBonly : ∀ x ∈ collapseRuns isHT ' ' (replCR l), isHT x = true → x = ' ' := by
    intro x hx hpx
    rcases collapseRuns_mem _ x hx with h1 | ⟨-, h2⟩
    · exact h1
    · rw [hpx] at h2
      exact Bool.noConfusion h2
  have hCadjHT :
      noAdjPair isHT (collapseRuns isNL '\n' (collapseRuns isHT ' ' (replCR l))) = true :=
    collapseRuns_noAdj_preserve (by decide) hBadj
  have hConlyHT :
      ∀ x ∈ collapseRuns isNL '\n' (collapseRuns isHT ' ' (replCR l)),
        isHT x = true → x = ' ' := by
    intro x hx hpx
    rcases collapseRuns_mem _ x hx with h1 | ⟨h2, -⟩
    · subst h1
      exact absurd hpx (by decide)
    · exact hBonly x h2 hpx
  have hCadjNL :
      noAdjPair isNL (collapseRuns isNL '\n' (collapseRuns isHT ' ' (replCR l))) = true :=
    collapseRuns_noAdj ..
  have hNadjHT : noAdjPair isHT (_norm_text l) = true := noAdjPair_pyStrip hCadjHT
  have hNadjNL : noAdjPair isNL (_norm_text l) = true := noAdjPair_pyStrip hCadjNL
  have hNonlyHT : ∀ x ∈ _norm_text l, isHT x = true → x = ' ' := fun x hx =>
    hConlyHT x (pyStrip_subset _ x hx)
  have hNnoCR : ∀ x ∈ _norm_text l, x ≠ '\r' := by
    intro x hx
    have hxC := pyStrip_subset _ x hx
    rcases collapseRuns_mem _ x hxC with h1 | ⟨h2, -⟩
    · subst h1
      decide
    · rcases collapseRuns_mem _ x h2 with h3 | ⟨h4, -⟩
      · subst h3
        decide
      · exact replCR_no_cr _ x h4
  show pyStrip (collapseRuns isNL '\n' (collapseRuns isHT ' ' (replCR (_norm_text l)))) =
    _norm_text l
  rw [replCR_eq_self hNnoCR]
  rw [collapseRuns_eq_self hNonlyHT hNadjHT]
  rw [collapseRuns_eq_self (fun x _ hpx => by simpa [isNL] using hpx) hNadjNL]
  show pyStrip (pyStrip (collapseRuns isNL '\n' (collapseRuns isHT ' ' (replCR l)))) =
    _norm_text l
  rw [pyStrip_idem]
  rfl

/-! ## Claim C9: label-to-line extraction value shape -/

theorem pyStrip_take_ne_nil {g : List Char} (hne : pyStrip g ≠ []) (n : Nat) (hn : 1 ≤ n) :
    pyStrip ((pyStrip g).take n) ≠ [] := by
  cases h : pyStrip g with
  | nil => exact absurd h hne
  | cons c r =>
    have hc := pyStrip_head_false h
    cases n with
    | zero => omega
    | succ m =>
      rw [List.take_succ_cons]
      exact pyStrip_cons_ne_nil hc _

/-- C9: for every chunk, label and maximum length (at least 1; the source's
default is 200), label-to-line extraction returns absent or a trimmed value
that is nonempty and at most the maximum long — absence is distinguishable
from an empty value. -/
theorem label_value_shape (text label : List Char) (maxLen : Nat) (hm : 1 ≤ maxLen)
    (v : List Char) (h : _extract_value_by_label text label maxLen = some v) :
    v ≠ [] ∧ v.length ≤ maxLen ∧ pyStrip v = v := by
  unfold _extract_value_by_label at h
  cases hscan : scanSuffix (labelValueAt label) text with
  | none =>
    rw [hscan] at h
    exact Option.noConfusion h
  | some g =>
    rw [hscan] at h
    dsimp only [] at h
    by_cases hstrip : pyStrip g = []
    · rw [if_pos hstrip] at h
      exact Option.noConfusion h
    · rw [if_neg hstrip, pyStrip_idem] at h
      by_cases hlen : maxLen < (pyStrip g).length
      · rw [if_pos hlen] at h
        obtain rfl := Option.some.inj h
        refine ⟨pyStrip_take_ne_nil hstrip maxLen hm, ?_, pyStrip_idem _⟩
        calc (pyStrip ((pyStrip g).take maxLen)).length
            ≤ ((pyStrip g).take maxLen).length := pyStrip_length_le _
          _ ≤ maxLen := by
              rw [List.length_take]
              omega
      · rw [if_neg hlen] at h
        obtain rfl := Option.some.inj h
        exact ⟨hstrip, by omega, pyStrip_idem g⟩

/-- Witness for C9 at `"Order Number: 151687471"` with the default maximum. -/
theorem label_value_shape_witness :
    "151687471".data ≠ [] ∧ "151687471".data.length ≤ 200 ∧
      pyStrip "151687471".data = "151687471".data :=
  label_value_shape "Order Number: 151687471".data "Order Number".data 200 (by decide)
    "151687471".data (by decide)

/-! ## Claim C5: the digit-run extractor -/

theorem chopDigits_elem_le (minL maxL : Nat) (l : List Char) :
    ∀ x ∈ chopDigits minL maxL l, x.length ≤ maxL := by
  induction l using chopDigits.induct minL maxL with
  | case1 l h ih =>
    intro x hx
    rw [chopDigits, if_pos h] at hx
    rcases List.mem_cons.mp hx with rfl | hx2
    · rw [List.length_take]
      omega
    · exact ih x hx2
  | case2 l h =>
    intro x hx
    rw [chopDigits, if_neg h] at hx
    simp at hx

theorem pyMaxByLen_head (h : List Char) (t : List (List Char))
    (ht : ∀ x ∈ t, x.length ≤ h.length) : pyMaxByLen h t = h := by
  induction t generalizing h with
  | nil => rfl
  | cons x xs ih =>
    show List.foldl _ (if h.length < x.length then x else h) xs = h
    rw [if_neg (by have := ht x (List.mem_cons_self ..); omega)]
    exact ih h fun y hy => ht y (List.mem_cons_of_mem x hy)

/-- C5 amended: `_extract_long_digit_run` concatenates all digits of the
chunk and (for bounds `1 ≤ min ≤ max`) returns the first `max`-or-fewer
digits of that concatenation whenever at least `min` digits exist, absent
otherwise; any returned value has length between `min` and `max`.  It does
not return the longest original digit-run of the chunk: stripping merges
adjacent runs, and the greedy scan then chops the merged digits from the
left. -/
theorem digit_run_amended (c : List Char) (minL maxL : Nat) (h1 : 1 ≤ minL)
    (h2 : minL ≤ maxL) :
    _extract_long_digit_run (some c) minL maxL =
      (if minL ≤ (digitsOnly c).length then some ((digitsOnly c).take maxL) else none) ∧
    (∀ v, _extract_long_digit_run (some c) minL maxL = some v →
      minL ≤ v.length ∧ v.length ≤ maxL) := by
  have hmain : _extract_long_digit_run (some c) minL maxL =
      (if minL ≤ (digitsOnly c).length then some ((digitsOnly c).take maxL) else none) := by
    show (if c = [] then none
      else match chopDigits minL maxL (digitsOnly c) with
        | [] => none
        | r :: rs => some (pyMaxByLen r rs)) = _
    by_cases hc : c = []
    · subst hc
      rw [if_pos rfl, if_neg]
      show ¬ minL ≤ (digitsOnly []).length
      simp [digitsOnly]
      omega
    · rw [if_neg hc]
      by_cases hlen : minL ≤ (digitsOnly c).length
      · rw [if_pos hlen, chopDigits, if_pos ⟨h1, h2, hlen⟩]
        show some (pyMaxByLen _ _) = _
        rw [pyMaxByLen_head]
        intro x hx
        have hxle := chopDigits_elem_le minL maxL _ x hx
        rw [List.length_take]
        by_cases hml : maxL ≤ (digitsOnly c).length
        · omega
        · rw [chopDigits, if_neg] at hx
          · simp at hx
          · rw [List.length_drop]
            omega
      · rw [if_neg hlen, chopDigits, if_neg (by omega)]
  refine ⟨hmain, ?_⟩
  intro v hv
  rw [hmain] at hv
  by_cases hlen : minL ≤ (digitsOnly c).length
  · rw [if_pos hlen] at hv
    obtain rfl := Option.some.inj hv
    rw [List.length_take]
    omega
  · rw [if_neg hlen] at hv
    exact Option.noConfusion hv

unseal chopDigits in
/-- Witness for the amended C5 at a chunk whose digit-runs have lengths
8, 12 and 10 with bounds `[10, 20]`. -/
theorem digit_run_amended_witness :
    _extract_long_digit_run (some "12345678 123456789012 1234567890".data) 10 20 =
      (if 10 ≤ (digitsOnly "12345678 123456789012 1234567890".data).length
       then some ((digitsOnly "12345678 123456789012 1234567890".data).take 20) else none) ∧
    _extract_long_digit_run (some "12345678 123456789012 1234567890".data) 10 20 =
      some "12345678123456789012".data :=
  ⟨(digit_run_amended "12345678 123456789012 1234567890".data 10 20 (by decide)
      (by decide)).1,
   by decide⟩

unseal chopDigits digitRuns in
/-- C5 counterexample: on the chunk `"123456789 012345678901"` with bounds
`[10, 20]` the only digit-run whose length is within the bounds is the
12-digit run `"012345678901"`, yet the extractor returns the 20-character
left chop of the merged digits, which is not that run (nor any run of the
chunk). -/
theorem digit_run_counterexample :
    _extract_long_digit_run (some "123456789 012345678901".data) 10 20 =
        some "12345678901234567890".data ∧
    digitRuns "123456789 012345678901".data =
        ["123456789".data, "012345678901".data] ∧
    ((digitRuns "123456789 012345678901".data).filter
        fun r => decide (10 ≤ r.length) && decide (r.length ≤ 20)) =
        ["012345678901".data] ∧
    "12345678901234567890".data ≠ "012345678901".data :=
  ⟨by decide, by decide, by decide, by decide⟩

/-! ## Claims C4 and C2: the phone extractor -/

theorem not_digit_of_pyWS {c : Char} (h : isPyWS c = true) : c.isDigit = false := by
  simp only [isPyWS, Bool.or_eq_true, beq_iff_eq] at h
  rcases h with ((((rfl | rfl) | rfl) | rfl) | rfl) | rfl <;> decide

theorem digitsOnly_takeWhileWS (t : List Char) : digitsOnly (t.takeWhile isPyWS) = [] := by
  rw [digitsOnly, List.filter_eq_nil_iff]
  intro a ha
  rw [not_digit_of_pyWS (List.mem_takeWhile_imp ha)]
  exact Bool.false_ne_true

theorem consumeDigits_spec :
    ∀ (n : Nat) (t d r : List Char), consumeDigits n t = some (d, r) →
      d.length = n ∧ digitsOnly d = d := by
  intro n
  induction n with
  | zero =>
    intro t d r h
    rw [consumeDigits] at h
    obtain ⟨rfl, rfl⟩ : [] = d ∧ t = r := by
      have := Option.some.inj h
      exact ⟨congrArg Prod.fst this, congrArg Prod.snd this⟩
    exact ⟨rfl, rfl⟩
  | succ m ih =>
    intro t d r h
    cases t with
    | nil => rw [consumeDigits] at h; exact Option.noConfusion h
    | cons c cs =>
      rw [consumeDigits] at h
      by_cases hc : c.isDigit
      · rw [if_pos hc] at h
        cases hrec : consumeDigits m cs with
        | none => rw [hrec] at h; exact Option.noConfusion h
        | some p =>
          rw [hrec] at h
          simp only [Option.map_some'] at h
          obtain ⟨rfl, rfl⟩ : c :: p.1 = d ∧ p.2 = r := by
            have := Option.some.inj h
            exact ⟨congrArg Prod.fst this, congrArg Prod.snd this⟩
          obtain ⟨h1, h2⟩ := ih cs p.1 p.2 (by rw [hrec])
          constructor
          · simp [h1]
          · rw [digitsOnly, List.filter_cons, if_pos hc]
            rw [digitsOnly] at h2
            rw [h2]
      · rw [if_neg hc] at h
        exact Option.noConfusion h

theorem consumeOpt_nodigit {p : Char → Bool} (hp : ∀ c, p c = true → c.isDigit = false)
    (t : List Char) : digitsOnly (consumeOpt p t).1 = [] := by
  cases t with
  | nil => rfl
  | cons c cs =>
    rw [consumeOpt]
    by_cases hc : p c
    · rw [if_pos hc]
      show digitsOnly [c] = []
      have hcd := hp c hc
      simp [digitsOnly, hcd]
    · rw [if_neg hc]
      rfl

theorem phoneSep_nodigit (t : List Char) : digitsOnly (phoneSep t).1 = [] := by
  have h1 := digitsOnly_takeWhileWS t
  have h2 := digitsOnly_takeWhileWS
    ((consumeOpt (fun c => c == '-' || c == ' ') (t.dropWhile isPyWS)).2)
  have h3 : digitsOnly (consumeOpt (fun c => c == '-' || c == ' ')
      (t.dropWhile isPyWS)).1 = [] := by
    apply consumeOpt_nodigit
    intro c hc
    simp only [Bool.or_eq_true, beq_iff_eq] at hc
    rcases hc with rfl | rfl <;> decide
  show digitsOnly
    (t.takeWhile isPyWS ++
      (consumeOpt (fun c => c == '-' || c == ' ') (t.dropWhile isPyWS)).1 ++
      ((consumeOpt (fun c => c == '-' || c == ' ') (t.dropWhile isPyWS)).2).takeWhile
        isPyWS) = []
  rw [digitsOnly] at h1 h2 h3 ⊢
  rw [List.filter_append, List.filter_append, h1, h2, h3]
  rfl

theorem matchPhoneAt_digits (t m : List Char) (h : matchPhoneAt t = some m) :
    (digitsOnly m).length = 10 := by
  rw [matchPhoneAt] at h
  dsimp only [] at h
  split at h
  · exact Option.noConfusion h
  · rename_i d1 t2 heq1
    split at h
    · exact Option.noConfusion h
    · rename_i d2 t5 heq2
      split at h
      · exact Option.noConfusion h
      · rename_i d3 t7 heq3
        obtain rfl := Option.some.inj h
        obtain ⟨hl1, hd1⟩ := consumeDigits_spec 3 _ _ _ heq1
        obtain ⟨hl2, hd2⟩ := consumeDigits_spec 3 _ _ _ heq2
        obtain ⟨hl3, hd3⟩ := consumeDigits_spec 4 _ _ _ heq3
        have ha : digitsOnly (consumeOpt (· == '(') t).1 = [] := by
          apply consumeOpt_nodigit
          intro c hc
          simp only [beq_iff_eq] at hc
          subst hc
          decide
        have hb : digitsOnly (consumeOpt (· == ')') t2).1 = [] := by
          apply consumeOpt_nodigit
          intro c hc
          simp only [beq_iff_eq] at hc
          subst hc
          decide
        have hs1 := phoneSep_nodigit (consumeOpt (· == ')') t2).2
        have hs2 := phoneSep_nodigit t5
        rw [digitsOnly] at ha hb hs1 hs2 hd1 hd2 hd3 ⊢
        rw [List.filter_append, List.filter_append, List.filter_append,
          List.filter_append, List.filter_append, List.filter_append]
        rw [ha, hb, hs1, hs2, hd1, hd2, hd3]
        simp [hl1, hl2, hl3]

theorem scanSuffix_found {α : Type} (f : List Char → Option α) :
    ∀ (t : List Char) (a : α), scanSuffix f t = some a → ∃ s : List Char, f s = some a := by
  intro t
  induction t with
  | nil => intro a h; exact ⟨[], h⟩
  | cons c cs ih =>
    intro a h
    rw [scanSuffix] at h
    cases hf : f (c :: cs) with
    | some b =>
      rw [hf] at h
      obtain rfl := Option.some.inj h
      exact ⟨c :: cs, hf⟩
    | none =>
      rw [hf] at h
      exact ih a h

/-- C4 amended: whenever the phone pattern matches, the match contains
exactly ten digits (the pattern's digit counts are fixed at 3+3+4), so the
"strip non-digits, keep the last ten when at least ten remain" step returns
precisely the digits of the regex match: always ten digits long, and — for a
longer merged digit run — the first ten digits of that run, not the last. -/
theorem phone_extractor_amended (c m : List Char)
    (h : scanSuffix matchPhoneAt c = some m) :
    (digitsOnly m).length = 10 ∧
    _extract_phone_from_chunk c = some (digitsOnly m) := by
  obtain ⟨s, hs⟩ := scanSuffix_found matchPhoneAt c m h
  have h10 := matchPhoneAt_digits s m hs
  refine ⟨h10, ?_⟩
  rw [_extract_phone_from_chunk]
  have hc : c ≠ [] := by
    intro hce
    rw [hce] at h
    rw [show scanSuffix matchPhoneAt [] = none from rfl] at h
    exact Option.noConfusion h
  rw [if_neg hc, h]
  dsimp only []
  rw [h10]
  simp

/-- Witness for the amended C4 at the chunk `"(780) 617-4431"`. -/
theorem phone_extractor_amended_witness :
    (digitsOnly "(780) 617-4431".data).length = 10 ∧
    _extract_phone_from_chunk "(780) 617-4431".data =
      some (digitsOnly "(780) 617-4431".data) :=
  phone_extractor_amended "(780) 617-4431".data "(780) 617-4431".data (by decide)

unseal digitRuns in
/-- C4 counterexample: in `"17806174431"` the digits form a single 11-digit
run (a ten-digit phone with one merged leading country-code digit); the last
ten digits of that run are `"7806174431"`, but the extractor returns the
first ten, because the regex match itself never contains more than ten
digits and the defensive last-ten step is the identity on it. -/
theorem phone_extractor_counterexample :
    _extract_phone_from_chunk "17806174431".data = some "1780617443".data ∧
    digitRuns "17806174431".data = ["17806174431".data] ∧
    (digitsOnly "17806174431".data).drop
        ((digitsOnly "17806174431".data).length - 10) = "7806174431".data ∧
    "1780617443".data ≠ "7806174431".data :=
  ⟨by decide, by decide, by decide, by decide⟩

/-- C2 amended: the phone-label lookup is scoped to the customer-information
section when that section is non-empty, but when the start marker is absent
(empty section) the lookup falls back to whole-document text, so the
customer phone can still be resolved there. -/
theorem customer_phone_scope (s : String) :
    (infoSectionOf (_norm_text s.data) ≠ [] →
      (parse_contract_text s).customer_phone =
        toStr (customerPhoneOf (infoSectionOf (_norm_text s.data)))) ∧
    (infoSectionOf (_norm_text s.data) = [] →
      (parse_contract_text s).customer_phone =
        toStr (customerPhoneOf (_norm_text s.data))) := by
  constructor
  · intro hne
    show toStr (customerPhoneOf (pyOrL (infoSectionOf (_norm_text s.data))
      (_norm_text s.data))) = _
    rw [pyOrL, if_neg hne]
  · intro he
    show toStr (customerPhoneOf (pyOrL (infoSectionOf (_norm_text s.data))
      (_norm_text s.data))) = _
    rw [pyOrL, if_pos he]

unseal collapseRuns in
/-- Witness for the amended C2: with the section marker present, the phone
field equals the section-scoped resolution. -/
theorem customer_phone_scope_witness :
    (parse_contract_text
        "YOUR INFORMATION:\nPhone Number: 780-617-4431\nYOUR DEVICE DETAILS:\nx").customer_phone =
      toStr (customerPhoneOf (infoSectionOf (_norm_text
        "YOUR INFORMATION:\nPhone Number: 780-617-4431\nYOUR DEVICE DETAILS:\nx".data))) :=
  (customer_phone_scope _).1 (by decide)

unseal collapseRuns in
/-- C2 counterexample: a document with no `YOUR INFORMATION:` marker (empty
customer-information section) whose whole-document text carries a
`Phone Number:` label still resolves a customer phone, contradicting
"never whole-document / absent when the section is empty". -/
theorem customer_phone_scope_counterexample :
    infoSectionOf (_norm_text "Phone Number: (780) 617-4431".data) = [] ∧
    (parse_contract_text "Phone Number: (780) 617-4431").customer_phone =
      some "7806174431" :=
  ⟨by decide, by decide⟩

/-! ## Claim C1: the raw text is NOT preserved in the output record -/

unseal collapseRuns chopDigits in
/-- C1 (code bug): the output record does not contain the original raw
input text.  `models.py` (lines 12-34) declares no `raw_text` field and
pydantic's default `extra='ignore'` configuration silently drops the
`raw_text=full_text` keyword at ocr.py line 381.  Consequently two distinct
raw inputs — differing only in trailing whitespace that normalization
removes — produce byte-for-byte identical records, which is impossible for
a record carrying the original unmodified text. -/
theorem raw_text_dropped :
    parse_contract_text "Activity: x" = parse_contract_text "Activity: x " ∧
    "Activity: x" ≠ "Activity: x " :=
  ⟨by decide, by decide⟩

/-! ## Claim C3: whole-document plan-charge retry order -/

/-- C3 amended: when the plan charge is still absent after processing the
Plan line, the whole-document retry tries the two charge labels in the
REVERSE of the within-line priority: a `Minimum Monthly Charge` amount
first, and only if that is absent a `Monthly Rate Plan Charge` amount. -/
theorem plan_charge_retry_amended (s : String)
    (h : (_pick_plan_name_and_charge
      (pyOrL (rateSectionOf (_norm_text s.data)) (_norm_text s.data))
      (_norm_text s.data)).2 = none) :
    (parse_contract_text s).plan_charge = planChargeRetry (_norm_text s.data) ∧
    (∀ t v, _money_to_float (chargeGroup mmcLabel t) = some v →
      planChargeRetry t = some v) := by
  constructor
  · show (match (_pick_plan_name_and_charge
      (pyOrL (rateSectionOf (_norm_text s.data)) (_norm_text s.data))
      (_norm_text s.data)).2 with
      | some c => some c
      | none => planChargeRetry (_norm_text s.data)) = _
    rw [h]
  · intro t v hv
    rw [planChargeRetry, hv]

unseal collapseRuns in
/-- Witness for the amended C3: on a document holding both charge labels and
no Plan line, the field equals the retry result, and the retry prefers the
`Minimum Monthly Charge` amount. -/
theorem plan_charge_retry_witness :
    (parse_contract_text
        "Minimum Monthly Charge: $85.00\nMonthly Rate Plan Charge: $20.00").plan_charge =
      planChargeRetry (_norm_text
        "Minimum Monthly Charge: $85.00\nMonthly Rate Plan Charge: $20.00".data) ∧
    planChargeRetry "Minimum Monthly Charge: $85.00".data = some 8500 :=
  ⟨(plan_charge_retry_amended _ (by decide)).1,
   (plan_charge_retry_amended "x" (by decide)).2 "Minimum Monthly Charge: $85.00".data 8500
     (by decide)⟩

unseal collapseRuns in
/-- C3 counterexample: with both labels present (and no Plan line), the
retry resolves the `Minimum Monthly Charge` amount $85.00 (8500 cents) even
though a `Monthly Rate Plan Charge` amount $20.00 (2000 cents) is available,
so the retry priority is not "Monthly Rate Plan Charge first" as claimed. -/
theorem plan_charge_retry_counterexample :
    (parse_contract_text
        "Minimum Monthly Charge: $85.00\nMonthly Rate Plan Charge: $20.00").plan_charge =
      some 8500 ∧
    _money_to_float (chargeGroup mrcLabel (_norm_text
        "Minimum Monthly Charge: $85.00\nMonthly Rate Plan Charge: $20.00".data)) =
      some 2000 ∧
    (8500 : Nat) ≠ 2000 :=
  ⟨by decide, by decide, by decide⟩

/-! ## Claim C6: section slicing -/

theorem foldr_min_swap (L : List Nat) (a x : Nat) :
    L.foldr min (min a x) = min x (L.foldr min a) := by
  induction L with
  | nil => exact Nat.min_comm a x
  | cons y ys ih =>
    simp only [List.foldr_cons, ih]
    rw [Nat.min_left_comm]

theorem sectionEndPos_eq (text : List Char) (startPos : Nat) (ems : List (List Char)) :
    sectionEndPos text startPos ems =
      (endMatchPositions text startPos ems).foldr min text.length := by
  rw [sectionEndPos, endMatchPositions]
  generalize text.length = a
  induction ems generalizing a with
  | nil => rfl
  | cons em rest ih =>
    cases hf : ciFind em (text.drop startPos) with
    | none =>
      simp only [List.foldl_cons, List.filterMap_cons, hf]
      exact ih a
    | some m =>
      simp only [List.foldl_cons, List.filterMap_cons, hf, Option.map_some']
      rw [List.foldr_cons, ih (min a (startPos + m))]
      exact foldr_min_swap _ _ _

/-- C6: the section slicer returns the empty section when the
case-insensitive start-marker search fails; otherwise it returns the trimmed
text running from just after the start-marker match up to the earliest
position among all end-marker matches found after the start, or to the end
of the document when no end marker matches (the fold below is the document
length when `endMatchPositions` is empty, else the least match position). -/
theorem extract_section_spec (text start : List Char) (ends : List (List Char)) :
    (ciFind start text = none → _extract_section text start ends = []) ∧
    (∀ i, ciFind start text = some i →
      _extract_section text start ends =
        pyStrip ((text.drop (i + start.length)).take
          ((endMatchPositions text (i + start.length) ends).foldr min text.length -
            (i + start.length)))) := by
  constructor
  · intro h
    rw [_extract_section, h]
  · intro i h
    rw [_extract_section, h]
    dsimp only []
    rw [sectionEndPos_eq]

/-- Witness for C6 at the spec's concrete example: slicing
`"A: x\nSTART:\nfoo\nEND:\nbar"` with start marker `"START:"` and end
markers `["END:"]` yields `"foo"`. -/
theorem extract_section_spec_witness :
    _extract_section "A: x\nSTART:\nfoo\nEND:\nbar".data "START:".data ["END:".data] =
      pyStrip ((("A: x\nSTART:\nfoo\nEND:\nbar".data).drop (5 + "START:".data.length)).take
        ((endMatchPositions "A: x\nSTART:\nfoo\nEND:\nbar".data
            (5 + "START:".data.length) ["END:".data]).foldr min
          "A: x\nSTART:\nfoo\nEND:\nbar".data.length - (5 + "START:".data.length))) ∧
    _extract_section "A: x\nSTART:\nfoo\nEND:\nbar".data "START:".data ["END:".data] =
      "foo".data :=
  ⟨(extract_section_spec _ _ _).2 5 (by decide), by decide⟩

/-! ## Claim C8: date-format priority -/

theorem char_digit_toNat {c : Char} (h : c.isDigit = true) :
    48 ≤ c.toNat ∧ c.toNat ≤ 57 := by
  simp only [Char.isDigit, Bool.and_eq_true, decide_eq_true_eq] at h
  obtain ⟨h1, h2⟩ := h
  have h1' : (48 : UInt32) ≤ c.val := h1
  rw [UInt32.le_def, BitVec.le_def] at h1' h2
  exact ⟨h1', h2⟩

theorem lowerC_digit {c : Char} (h : c.isDigit = true) : lowerC c = c := by
  obtain ⟨-, h2⟩ := char_digit_toNat h
  rw [lowerC, if_neg]
  rintro ⟨h3, -⟩
  omega

theorem ciStarts_false_of_head {x c : Char} (hx : (lowerC x).isDigit = false)
    (hc : c.isDigit = true) (xs rest : List Char) :
    ciStarts (x :: xs) (c :: rest) = false := by
  show (if lowerC x = lowerC c then ciStarts xs rest else false) = false
  rw [if_neg]
  intro he
  rw [lowerC_digit hc] at he
  rw [he] at hx
  rw [hc] at hx
  exact Bool.noConfusion hx

theorem matchMonthFrom_digit {names : List (List Char)}
    (hn : ∀ n ∈ names, headLowerNonDigit n = true) :
    ∀ (i : Nat) {c : Char}, c.isDigit = true → ∀ (rest : List Char),
      matchMonthFrom names i (c :: rest) = none := by
  induction names with
  | nil => intro i c hc rest; rfl
  | cons n ns ih =>
    intro i c hc rest
    have hn1 := hn n (List.mem_cons_self ..)
    cases n with
    | nil => exact absurd hn1 (by rw [headLowerNonDigit]; exact Bool.false_ne_true)
    | cons x xs =>
      rw [headLowerNonDigit, Bool.not_eq_true'] at hn1
      rw [matchMonthFrom, ciStarts_false_of_head hn1 hc]
      simp only [Bool.false_eq_true, if_false]
      exact ih (fun m hm => hn m (List.mem_cons_of_mem (x :: xs) hm)) (i + 1) hc rest

theorem strptimeMonthName_digit {names : List (List Char)}
    (hn : ∀ n ∈ names, headLowerNonDigit n = true) {c : Char} (hc : c.isDigit = true)
    (rest : List Char) :
    strptimeMonthName names (c :: rest) = Except.error () := by
  rw [strptimeMonthName, matchMonthFrom_digit hn 1 hc rest]

theorem parseField2_shape {v2 : Nat → Bool} {t r : List Char} {v : Nat}
    (h : parseField2 v2 t = some (v, r)) :
    ∃ c1, c1.isDigit = true ∧
      (t = c1 :: r ∨ ∃ c2, c2.isDigit = true ∧ t = c1 :: c2 :: r) := by
  cases t with
  | nil => rw [parseField2] at h; exact Option.noConfusion h
  | cons c1 t1 =>
    cases t1 with
    | nil =>
      rw [parseField2] at h
      by_cases hc : c1.isDigit = true ∧ dval c1 ≠ 0
      · rw [if_pos hc] at h
        have hr : ([] : List Char) = r := congrArg Prod.snd (Option.some.inj h)
        exact ⟨c1, hc.1, Or.inl (by rw [← hr])⟩
      · rw [if_neg hc] at h
        exact Option.noConfusion h
    | cons c2 t2 =>
      rw [parseField2] at h
      by_cases hc : c1.isDigit = true ∧ c2.isDigit = true ∧ v2 (dval c1 * 10 + dval c2) = true
      · rw [if_pos hc] at h
        have hr : t2 = r := congrArg Prod.snd (Option.some.inj h)
        exact ⟨c1, hc.1, Or.inr ⟨c2, hc.2.1, by rw [hr]⟩⟩
      · rw [if_neg hc] at h
        by_cases hc1 : c1.isDigit = true ∧ dval c1 ≠ 0
        · rw [if_pos hc1] at h
          have hr : c2 :: t2 = r := congrArg Prod.snd (Option.some.inj h)
          exact ⟨c1, hc1.1, Or.inl (by rw [hr])⟩
        · rw [if_neg hc1] at h
          exact Option.noConfusion h

theorem year4_slash1 (c : Char) (r : List Char) : year4 (c :: '/' :: r) = none := by
  cases r with
  | nil => rfl
  | cons x r2 =>
    cases r2 with
    | nil => rfl
    | cons y r3 =>
      rw [year4, if_neg]
      rintro ⟨-, h2, -⟩
      exact absurd h2 (by decide)

theorem year4_slash2 (a b : Char) (r : List Char) : year4 (a :: b :: '/' :: r) = none := by
  cases r with
  | nil => rfl
  | cons x r2 =>
    rw [year4, if_neg]
    rintro ⟨-, -, h3, -⟩
    exact absurd h3 (by decide)

theorem strptime_mdY_priority (t : List Char) (d : PyDate)
    (h : strptime_mdY t = Except.ok d) : tryFormats t = some d := by
  have hshape : ∃ c1 rest, t = c1 :: rest ∧ c1.isDigit = true ∧ year4 t = none := by
    rw [strptime_mdY] at h
    split at h
    · rename_i m t1 heq
      obtain ⟨c1, hc1, hcase⟩ := parseField2_shape heq
      rcases hcase with rfl | ⟨c2, hc2, rfl⟩
      · exact ⟨c1, _, rfl, hc1, year4_slash1 ..⟩
      · exact ⟨c1, _, rfl, hc1, year4_slash2 ..⟩
    · exact Except.noConfusion h
  obtain ⟨c1, rest, rfl, hc1, hy4⟩ := hshape
  have e1 : strptimeE DateFmt.BdY (c1 :: rest) = Except.error () :=
    strptimeMonthName_digit (by decide) hc1 rest
  have e2 : strptimeE DateFmt.bdY (c1 :: rest) = Except.error () :=
    strptimeMonthName_digit (by decide) hc1 rest
  have e3 : strptimeE DateFmt.Ymd (c1 :: rest) = Except.error () := by
    show strptime_Ymd (c1 :: rest) = Except.error ()
    rw [strptime_Ymd, hy4]
  have e4 : strptimeE DateFmt.mdY (c1 :: rest) = Except.ok d := h
  rw [tryFormats, DATE_PATTERNS]
  simp [e1, e2, e3, e4, Except.toOption]

unseal collapseRuns in
/-- C8: the date parser tries its calendar formats in the fixed order — long
month name, abbreviated month, ISO `YYYY-MM-DD`, `MM/DD/YYYY`, then
`DD/MM/YYYY` — returning the first success: whenever `%m/%d/%Y` succeeds the
three earlier formats necessarily fail and its result is returned (so a
slash date valid both ways parses month-first), and concretely
`"11/19/2025"` parses to 2025-11-19 and `"03/04/2025"` to 2025-03-04, in
agreement with `"November 19, 2025"` and `"2025-11-19"`. -/
theorem date_parser_priority :
    (∀ (t : List Char) (d : PyDate), strptime_mdY t = Except.ok d →
      tryFormats t = some d) ∧
    _parse_date_str (some "11/19/2025".data) = some ⟨2025, 11, 19⟩ ∧
    _parse_date_str (some "03/04/2025".data) = some ⟨2025, 3, 4⟩ ∧
    _parse_date_str (some "November 19, 2025".data) = some ⟨2025, 11, 19⟩ ∧
    _parse_date_str (some "2025-11-19".data) = some ⟨2025, 11, 19⟩ :=
  ⟨strptime_mdY_priority, by decide, by decide, by decide, by decide⟩

/-- Witness for C8: the month-first priority applied at `"11/19/2025"`. -/
theorem date_parser_priority_witness :
    tryFormats "11/19/2025".data = some ⟨2025, 11, 19⟩ :=
  date_parser_priority.1 "11/19/2025".data ⟨2025, 11, 19⟩ rfl

/-! ## Claim C10: no fatal failure mode -/

theorem except_toOption_none {ε α : Type} {e : Except ε α} (h : e.isOk = false) :
    e.toOption = none := by
  cases e with
  | error a => rfl
  | ok a => exact Bool.noConfusion h

/-- C10: the engine has no fatal failure mode — `parse_contract_text` is a
total function on strings, every input yields a record, and the
date-resolution chain maps parse failures to absence: when every
`DATE_PATTERNS` format raises `ValueError` on a candidate and the ISO
fallback also fails, the format loop and the fallback yield `None` instead
of propagating an error. -/
theorem engine_no_fatal_failure :
    (∀ s : String, ∃ r : ContractExtraction, parse_contract_text s = r) ∧
    (∀ c : List Char, (∀ fmt ∈ DATE_PATTERNS, (strptimeE fmt c).isOk = false) →
      (fromisoformatE c).isOk = false →
      tryFormats c = none ∧ (fromisoformatE c).toOption = none) := by
  constructor
  · intro s
    exact ⟨parse_contract_text s, rfl⟩
  · intro c hfmt hiso
    refine ⟨?_, except_toOption_none hiso⟩
    have t1 : (strptimeE DateFmt.BdY c).toOption = none :=
      except_toOption_none (hfmt DateFmt.BdY (by decide))
    have t2 : (strptimeE DateFmt.bdY c).toOption = none :=
      except_toOption_none (hfmt DateFmt.bdY (by decide))
    have t3 : (strptimeE DateFmt.Ymd c).toOption = none :=
      except_toOption_none (hfmt DateFmt.Ymd (by decide))
    have t4 : (strptimeE DateFmt.mdY c).toOption = none :=
      except_toOption_none (hfmt DateFmt.mdY (by decide))
    have t5 : (strptimeE DateFmt.dmY c).toOption = none :=
      except_toOption_none (hfmt DateFmt.dmY (by decide))
    rw [tryFormats, DATE_PATTERNS]
    simp only [List.foldl_cons, List.foldl_nil, t1, t2, t3, t4, t5]

/-- Witness for C10: totality at a concrete input, and failure-to-absence on
the unparseable date candidate `"garbage"`. -/
theorem engine_no_fatal_failure_witness :
    (∃ r : ContractExtraction, parse_contract_text "x" = r) ∧
    tryFormats "garbage".data = none :=
  ⟨engine_no_fatal_failure.1 "x",
   (engine_no_fatal_failure.2 "garbage".data (by decide) (by decide)).1⟩
